import Mathlib

/-
Verification of the tidypolars4sci data loader
(`tidypolars4sci/io.py`, `tidypolars4sci/utils.py`).

Header cells are modelled as `Option String` (`none` is the Python value
`None`); the frames returned by polars are rectangular, so the cell access
`header_rows[r][c]` is modelled with `List.getD`, which agrees with the
source on every rectangular header block.
-/

namespace TidyPolars4Sci

/-- Python `str.strip()` on a string: drop leading and trailing whitespace.
Implemented on the character list so that it evaluates by kernel reduction. -/
def pyStrip (s : String) : String :=
  String.mk (((s.data.dropWhile Char.isWhitespace).reverse.dropWhile
    Char.isWhitespace).reverse)

/-- Python `str(x)` on an optional string (`str(None)` is the text `"None"`). -/
def pyStr : Option String → String
  | none => "None"
  | some s => s

/-- Python `sep.join(xs)` for a list of strings. -/
def pyJoin (sep : String) : List String → String
  | [] => ""
  | [x] => x
  | x :: xs => x ++ sep ++ pyJoin sep xs

/-- Missing-cell test of `read_data._apply_multiheader_from_frames`
(io.py lines 476-480 and 490-495): a cell is missing when it is `None`,
the empty string, or a string equal to the merge sentinel
(`val is None or val == "" or (isinstance(val, str) and val == multi_col_sentinel)`). -/
def isMissingCell (sentinel : String) (v : Option String) : Bool :=
  match v with
  | none => true
  | some s => decide (s = "" ∨ s = sentinel)

/-- Left-to-right scan of one upper header row carrying `last_val`
(io.py lines 471-485): a missing cell is replaced by `last_val`; a
non-missing cell is kept and becomes the new `last_val`. -/
def ffillGo (sentinel : String) (last : Option String) :
    List (Option String) → List (Option String)
  | [] => []
  | v :: rest =>
    if isMissingCell sentinel v then last :: ffillGo sentinel last rest
    else v :: ffillGo sentinel v rest

/-- Forward-fill of one upper header row; `last_val` starts as `None`. -/
def ffillRow (sentinel : String) (row : List (Option String)) :
    List (Option String) :=
  ffillGo sentinel none row

/-- Cleaning of the last (deepest) header row (io.py lines 487-498):
missing cells become `None`; other cells are kept (`str(val)` is the
identity on the strings modelled here). -/
def cleanLastRow (sentinel : String) (row : List (Option String)) :
    List (Option String) :=
  row.map (fun v => if isMissingCell sentinel v then none else v)

/-- Phases 1 and 2 of the flattener on a non-empty header block: every row
except the last is forward-filled, the last row is cleaned. -/
def headerProcess (sentinel : String) (rows : List (List (Option String))) :
    List (List (Option String)) :=
  if rows.isEmpty then []
  else (rows.take (rows.length - 1)).map (ffillRow sentinel)
    ++ [cleanLastRow sentinel (rows.getLastD [])]

/-- Per-column clean-level stack (io.py lines 505-511):
`[str(x).strip() for x in levels if x is not None and str(x).strip() != ""]`. -/
def cleanLevels (cells : List (Option String)) : List String :=
  cells.filterMap (fun x =>
    match x with
    | none => none
    | some s => if pyStrip s = "" then none else some (pyStrip s))

/-- Cells of column `c`, top row to bottom row. -/
def columnCells (rows : List (List (Option String))) (c : Nat) :
    List (Option String) :=
  rows.map (fun r => r.getD c none)

/-- Clean-level stacks of every column of a header block, after
forward-fill and last-row cleaning (io.py lines 500-513). -/
def cleanedStacks (sentinel : String) (rows : List (List (Option String))) :
    List (List String) :=
  (List.range (rows.headD []).length).map
    (fun c => cleanLevels (columnCells (headerProcess sentinel rows) c))

/-- Embedding of `read_data._combine_with_parens` (io.py lines 384-405):
drop levels that are `None`, empty, or the literal text `"None"` (a fixed
set, independent of any sentinel), strip the rest; the first survivor is
the base, the remaining non-empty survivors are joined by `sep` inside
parentheses. -/
def combine_with_parens (levels : List (Option String)) (sep : String) :
    String :=
  let cleaned := levels.filterMap (fun l =>
    if l = none ∨ l = some "" ∨ l = some "None" then none
    else some (pyStrip (pyStr l)))
  match cleaned with
  | [] => ""
  | base :: rest =>
    let lowers := rest.filter (fun lvl => !(lvl == ""))
    if lowers.isEmpty then base
    else base ++ " (" ++ pyJoin sep lowers ++ ")"

/-- Value of the `header_combine_rule` option read at io.py line 450:
absent (Python `None`), the shorthand string `'_'`, or a caller-supplied
callable. -/
inductive CombineRule where
  | none
  | underscore
  | custom (f : List String → String)

/-- Resolution of the combine rule (io.py lines 450-455): absent means
`_combine_with_parens` with the configured parenthesis separator, `'_'`
means underscore join, a callable is used as given. -/
def resolveCombine (rule : CombineRule) (combine_parenthesis_sep : String) :
    List String → String :=
  match rule with
  | .none => fun levels => combine_with_parens (levels.map some) combine_parenthesis_sep
  | .underscore => fun levels => pyJoin "_" levels
  | .custom f => f

/-- Phase 4 of the flattener (io.py lines 516-534): a column with an empty
stack gets the fallback `column_<index+1>`; a column whose base name is
unique across the header keeps the base name alone; otherwise the combine
rule is applied to the full stack. -/
def buildNames (combine : List String → String)
    (stks : List (List String)) : List String :=
  let baseNames := stks.map List.head?
  (List.range stks.length).map (fun c =>
    match (stks.getD c []).head? with
    | Option.none => "column_" ++ toString (c + 1)
    | Option.some base =>
      if baseNames.count (Option.some base) = 1 then base
      else combine (stks.getD c []))

/-- Embedding of `read_data._apply_multiheader_from_frames`
(io.py lines 407-539).  The result is the list of flattened column names
in column order; the source applies them to `df_data` by a positional
rename as its final step, so an error return leaves the data frame's
column names untouched.  The defaults of the source signature are
`combine_parenthesis_sep='; '` and `multi_col_sentinel="None"`. -/
def apply_multiheader_from_frames (dataCols : List String)
    (headerRows : List (List (Option String)))
    (rule : CombineRule) (combine_parenthesis_sep : String)
    (sentinel : String) : Except String (List String) :=
  if headerRows.length = 0 then
    Except.error "df_header must have at least one row (a header level)."
  else if dataCols.length ≠ (headerRows.headD []).length then
    Except.error "df_data and df_header have different column counts."
  else
    Except.ok (buildNames (resolveCombine rule combine_parenthesis_sep)
      (cleanedStacks sentinel headerRows))

/-- Flattener invocation with every keyword option left at its default,
as when `read_data` forwards a plain `**kws`: no `header_combine_rule`,
`combine_parenthesis_sep='; '`, `multi_col_sentinel="None"`. -/
def apply_multiheader_defaults (dataCols : List String)
    (headerRows : List (List (Option String))) : Except String (List String) :=
  apply_multiheader_from_frames dataCols headerRows CombineRule.none "; " "None"

/-!  Label model (`DATA_LABELS`, io.py lines 22-49).  The raw dictionaries
are modelled as association lists; a raw variable label is `Option String`
(the declared type is `Dict[str, Optional[str]]`), a raw value-label entry
is an optional mapping from coded value to label text. -/

/-- First phase of `DATA_LABELS.__post_init__` (io.py lines 29-34): keep
only entries whose label is a string that is non-empty after stripping. -/
def filterVariables (variablesRaw : List (String × Option String)) :
    List (String × String) :=
  variablesRaw.filterMap (fun kv =>
    match kv.2 with
    | some s => if pyStrip s = "" then none else some (kv.1, s)
    | none => none)

/-- Second phase of `DATA_LABELS.__post_init__` (io.py lines 36-42): for
every name of `original`, use the extracted label when the name is a key
of the filtered dictionary, else the name itself. -/
def completeVariables (original : List String)
    (filtered : List (String × String)) : List (String × String) :=
  original.map (fun var =>
    match filtered.find? (fun kv => kv.1 == var) with
    | some kv => (var, kv.2)
    | none => (var, var))

/-- Third phase of `DATA_LABELS.__post_init__` (io.py lines 44-49): keep
only value-label entries that are a non-empty mapping. -/
def filterValues
    (valuesRaw : List (String × Option (List (String × String)))) :
    List (String × List (String × String)) :=
  valuesRaw.filterMap (fun kv =>
    match kv.2 with
    | some d => if d.isEmpty then none else some (kv.1, d)
    | none => none)

/-- Normalized label model after construction.  The source field name
`variables` is a reserved word in Lean and is rendered `varLabels`. -/
structure DATA_LABELS where
  original : List String
  varLabels : List (String × String)
  values : List (String × List (String × String))

/-- Construction of `DATA_LABELS`: `__post_init__` runs the three phases
once, immediately. -/
def mkDataLabels (original : List String)
    (variablesRaw : List (String × Option String))
    (valuesRaw : List (String × Option (List (String × String)))) :
    DATA_LABELS :=
  { original := original
    varLabels := completeVariables original (filterVariables variablesRaw)
    values := filterValues valuesRaw }

/-- Label that `__post_init__` extracts for a name from the raw dictionary:
the stored string when the first entry for the name carries a string label
that is non-empty after stripping, else nothing. -/
def extractedLabel (variablesRaw : List (String × Option String))
    (var : String) : Option String :=
  match variablesRaw.find? (fun kv => kv.1 == var) with
  | some kv =>
    match kv.2 with
    | some s => if pyStrip s = "" then none else some s
    | none => none
  | none => none

/-!  Path/URL normalizer (`_expand_to_full_path_or_url`, utils.py lines
141-175).  The external collaborators `urllib.parse.urlparse` and
`urllib.request.url2pathname` are modelled at their documented interface:
`urlparse` extracts a scheme (letter followed by letters, digits, `+`,
`-`, `.`, before the first `:`, lowercased), strips a `//netloc`
component, a `#fragment` and a `?query`; `url2pathname` on posix is
`unquote`, i.e. percent-decoding (modelled bytewise for `%XY` pairs).
`Path.expanduser().resolve()` is kept abstract as a function
`resolve : String → String`, applied identically wherever the source
applies it. -/

/-- Split a character list at its first `:`: characters before it and
characters after it. -/
def splitColon : List Char → Option (List Char × List Char)
  | [] => none
  | c :: rest =>
    if c = ':' then some ([], rest)
    else
      match splitColon rest with
      | some (pre, post) => some (c :: pre, post)
      | none => none

/-- Characters admissible in a URI scheme (RFC 3986 / CPython
`scheme_chars`). -/
def isSchemeChar (c : Char) : Bool :=
  c.isAlphanum || c == '+' || c == '-' || c == '.'

/-- Test that a non-empty character list is a parseable scheme: first
character a letter, every character a scheme character. -/
def isSchemeChars : List Char → Bool
  | [] => false
  | c :: cs => c.isAlpha && (c :: cs).all isSchemeChar

/-- Strip a leading `//netloc` component: when the remainder starts with
`//`, the netloc extends to the first `/`, `?` or `#`. -/
def dropNetloc : List Char → List Char
  | '/' :: '/' :: rest =>
    rest.dropWhile (fun c => !(c == '/' || c == '?' || c == '#'))
  | l => l

/-- Path component of the post-scheme remainder: strip the netloc, then
cut at the first `#` (fragment) and at the first `?` (query). -/
def pathOf (u : List Char) : List Char :=
  ((dropNetloc u).takeWhile (fun c => !(c == '#'))).takeWhile
    (fun c => !(c == '?'))

/-- Scheme and path of `urllib.parse.urlparse`: scheme when the prefix
before the first `:` is parseable (then lowercased), else empty scheme
and the whole string is the remainder. -/
def urlparse_scheme_path (s : String) : String × String :=
  match splitColon s.data with
  | some (pre, post) =>
    if isSchemeChars pre then
      (String.mk (pre.map Char.toLower), String.mk (pathOf post))
    else ("", String.mk (pathOf s.data))
  | none => ("", String.mk (pathOf s.data))

/-- Hexadecimal value of a character, when it is a hex digit. -/
def hexVal (c : Char) : Option Nat :=
  if '0' ≤ c ∧ c ≤ '9' then some (c.toNat - '0'.toNat)
  else if 'a' ≤ c ∧ c ≤ 'f' then some (c.toNat - 'a'.toNat + 10)
  else if 'A' ≤ c ∧ c ≤ 'F' then some (c.toNat - 'A'.toNat + 10)
  else none

/-- Percent-decoding of `urllib.parse.unquote`, bytewise on `%XY` pairs. -/
def unquoteL : List Char → List Char
  | [] => []
  | '%' :: a :: b :: rest2 =>
    match hexVal a, hexVal b with
    | some ha, some hb => Char.ofNat (ha * 16 + hb) :: unquoteL rest2
    | _, _ => '%' :: unquoteL (a :: b :: rest2)
  | c :: rest => c :: unquoteL rest

/-- Posix `urllib.request.url2pathname`: plain `unquote`. -/
def url2pathname_posix (p : String) : String :=
  String.mk (unquoteL p.data)

/-- Substring test: `pat` occurs somewhere inside the list. -/
def containsSub (pat : List Char) : List Char → Bool
  | [] => pat.isEmpty
  | c :: rest => pat.isPrefixOf (c :: rest) || containsSub pat rest

/-- Embedding of `_expand_to_full_path_or_url` (utils.py lines 141-175)
on an optional string input.  `None` and the empty string (both falsy)
are returned unchanged; a string containing `://` is parsed: scheme
`file` converts the URL path component to a local path and resolves it,
another parseable scheme is returned unchanged, no parseable scheme
falls through; every other string is resolved as a filesystem path. -/
def expand_to_full_path_or_url (resolve : String → String)
    (p : Option String) : Option String :=
  match p with
  | none => none
  | some s =>
    if s = "" then some s
    else if containsSub [':', '/', '/'] s.data then
      if (urlparse_scheme_path s).1 = "file" then
        some (resolve (url2pathname_posix (urlparse_scheme_path s).2))
      else if (urlparse_scheme_path s).1 ≠ "" then some s
      else some (resolve s)
    else some (resolve s)

/-!  Dispatcher argument phase (`read_data.__new__`, io.py lines 199-245),
`read_gspread` preconditions (io.py lines 339-342) and the `big_data`
stub (io.py lines 241-242 and 541-547).  Python exceptions are modelled
explicitly; `os.path.isfile` is kept abstract as a boolean oracle. -/

/-- Exceptions the dispatcher's argument phase can raise. -/
inductive PyExc where
  | assertionError (msg : String)
  | typeError (msg : String)
  | unboundLocalError (name : String)
deriving DecidableEq

/-- Python truthiness of an optional string: `None` and the empty string
are falsy. -/
def truthy : Option String → Bool
  | none => false
  | some s => !(s == "")

/-- Argument-checking prefix of `read_data.__new__` (io.py lines
199-209): normalize `fn`, require `fn or url` (AssertionError otherwise),
then evaluate `re.search(pattern="^http", string=fn)` — which raises
`TypeError` when `fn` is `None` — and, for a non-http `fn`, require an
existing file.  On success the normalized `fn` flows on to dispatch. -/
def read_data_argcheck (resolve : String → String)
    (isfile : String → Bool) (fn url : Option String) :
    Except PyExc (Option String) :=
  let fn2 := expand_to_full_path_or_url resolve fn
  if !(truthy fn2 || truthy url) then
    Except.error (PyExc.assertionError "Either fn or url must be provided.")
  else
    match fn2 with
    | none => Except.error (PyExc.typeError "expected string or bytes-like object")
    | some s =>
      if !(("http".data).isPrefixOf s.data) then
        if isfile s then Except.ok (some s)
        else Except.error (PyExc.assertionError ("File " ++ s ++ " not found."))
      else Except.ok (some s)

/-- Argument preconditions of `read_data.read_gspread` (io.py lines
340-342): both a credentials artifact and a URL are required. -/
def read_gspread_argcheck (credentials url : Option String) :
    Except PyExc Unit :=
  if !(truthy credentials) then
    Except.error (PyExc.assertionError
      "A json file with google spreadsheet API credentials must be provided.")
  else if !(truthy url) then
    Except.error (PyExc.assertionError
      "The google spreadsheet URL must be provided.")
  else Except.ok ()

/-- The call `read_dask.__new__` with a given number of positional
arguments (io.py lines 541-547): the definition accepts zero positional
arguments; when actually entered it prints a message and returns `None`
(no table). -/
def read_dask_new (posArgs : Nat) : Except PyExc (Option Unit) :=
  if posArgs ≠ 0 then
    Except.error (PyExc.typeError
      "read_dask.__new__ takes 0 positional arguments")
  else Except.ok none

/-- The `big_data` branch of `read_data.__new__` (io.py lines 241-245):
`read_dask(fn, **kws)` calls `read_dask.__new__` with two positional
arguments (the class and `fn`); the branch assigns no `df`, so the final
`return df` would raise `UnboundLocalError` even if the call returned. -/
def read_data_big_data_branch : Except PyExc (Option Unit) :=
  match read_dask_new 2 with
  | Except.error e => Except.error e
  | Except.ok _ => Except.error (PyExc.unboundLocalError "df")

/-- Row-range conversion of `read_data.read_sav` (io.py lines 316-323):
a supplied `rows_range=[a, b]` becomes `row_offset = a - 1` and
`row_limit = b - row_offset`; absent, both are 0. -/
def sav_row_window (rows_range : Option (Int × Int)) : Int × Int :=
  match rows_range with
  | some (a, b) => (a - 1, b - (a - 1))
  | none => (0, 0)

/-!  Theorems. -/

/-- Final name of column `c` as produced by phase 4 of the flattener. -/
theorem buildNames_getD (combine : List String → String)
    (stks : List (List String)) (c : Nat) (hc : c < stks.length) :
    (buildNames combine stks).getD c "" =
      match (stks.getD c []).head? with
      | Option.none => "column_" ++ toString (c + 1)
      | Option.some base =>
        if (stks.map List.head?).count (Option.some base) = 1 then base
        else combine (stks.getD c []) := by
  unfold buildNames
  rw [List.getD_eq_getElem?_getD, List.getElem?_map, List.getElem?_range hc]
  rfl

/-- C1: for every header block accepted by the flattener, after the
per-column clean-level stacks are computed, a column whose base name
(first clean level) occurs in exactly one column gets the base name alone
as its final name, and a column whose base name occurs in two or more
columns gets the combine rule applied to its full clean-level stack; for
the header rows `[["Party","Party","Age"], ["Code","Value","Value"]]`
over 3 columns this yields `"Party (Code)"`, `"Party (Value)"`, `"Age"`
(the witness instantiates exactly that block). -/
theorem c1_multiheader_disambiguation :
    ∀ (dataCols : List String) (headerRows : List (List (Option String)))
      (rule : CombineRule) (sep sentinel : String) (names : List String)
      (c : Nat) (base : String),
      apply_multiheader_from_frames dataCols headerRows rule sep sentinel
          = Except.ok names →
      c < (cleanedStacks sentinel headerRows).length →
      ((cleanedStacks sentinel headerRows).getD c []).head? = some base →
      (((cleanedStacks sentinel headerRows).map List.head?).count (some base) = 1 →
          names.getD c "" = base)
      ∧ (2 ≤ ((cleanedStacks sentinel headerRows).map List.head?).count (some base) →
          names.getD c ""
            = resolveCombine rule sep ((cleanedStacks sentinel headerRows).getD c [])) := by
  intro dataCols headerRows rule sep sentinel names c base hok hc hbase
  have hnames : names
      = buildNames (resolveCombine rule sep) (cleanedStacks sentinel headerRows) := by
    unfold apply_multiheader_from_frames at hok
    by_cases h0 : headerRows.length = 0
    · rw [if_pos h0] at hok; exact Except.noConfusion hok
    · rw [if_neg h0] at hok
      by_cases h1 : dataCols.length ≠ (headerRows.headD []).length
      · rw [if_pos h1] at hok; exact Except.noConfusion hok
      · rw [if_neg h1] at hok; exact (Except.ok.inj hok).symm
  subst hnames
  rw [buildNames_getD _ _ _ hc]
  simp only [hbase]
  constructor
  · intro h1; rw [if_pos h1]
  · intro h2; rw [if_neg (by omega)]

/-- Witness for C1 on the header block of the claim. -/
theorem c1_multiheader_disambiguation_witness :
    (["Party (Code)", "Party (Value)", "Age"] : List String).getD 2 "" = "Age"
    ∧ (["Party (Code)", "Party (Value)", "Age"] : List String).getD 0 ""
        = resolveCombine CombineRule.none "; "
            ((cleanedStacks "None"
              [[some "Party", some "Party", some "Age"],
               [some "Code", some "Value", some "Value"]]).getD 0 []) := by
  constructor
  · exact (c1_multiheader_disambiguation ["c1", "c2", "c3"]
      [[some "Party", some "Party", some "Age"],
       [some "Code", some "Value", some "Value"]]
      CombineRule.none "; " "None" ["Party (Code)", "Party (Value)", "Age"]
      2 "Age" rfl (by decide) (by decide)).1 (by decide)
  · exact (c1_multiheader_disambiguation ["c1", "c2", "c3"]
      [[some "Party", some "Party", some "Age"],
       [some "Code", some "Value", some "Value"]]
      CombineRule.none "; " "None" ["Party (Code)", "Party (Value)", "Age"]
      0 "Party" rfl (by decide) (by decide)).2 (by decide)

/-- Drop of the first element under `getLast?`-with-default: the head
only matters when the tail is empty. -/
theorem getLast?_cons_getD {α : Type} :
    ∀ (l : List α) (a d : α),
      ((a :: l).getLast?).getD d = (l.getLast?).getD a := by
  intro l
  induction l with
  | nil => intro a d; rfl
  | cons b l ih =>
    intro a d
    rw [List.getLast?_cons_cons, ih b d, ← ih b a]

/-- Characterization of the forward-fill scan: a missing cell receives
the last non-missing cell of the prefix to its left (the accumulator
`last` when that prefix has none); a non-missing cell stays unchanged. -/
theorem ffillGo_getD (sentinel : String) :
    ∀ (row : List (Option String)) (last : Option String) (c : Nat),
      c < row.length →
      (ffillGo sentinel last row).getD c none =
        if isMissingCell sentinel (row.getD c none)
        then (((row.take c).filter
            (fun v => !(isMissingCell sentinel v))).getLast?).getD last
        else row.getD c none := by
  intro row
  induction row with
  | nil => intro last c hc; exact absurd hc (by simp)
  | cons v rest ih =>
    intro last c hc
    cases c with
    | zero =>
      by_cases hm : isMissingCell sentinel v = true
      · simp [ffillGo, hm]
      · simp [ffillGo, hm]
    | succ c =>
      have hc2 : c < rest.length := by simpa using hc
      by_cases hm : isMissingCell sentinel v = true
      · simp only [ffillGo, if_pos hm, List.getD_cons_succ]
        rw [ih last c hc2]
        simp [List.take_succ_cons, List.filter_cons, hm]
      · have hm2 : isMissingCell sentinel v = false := by
          revert hm; cases isMissingCell sentinel v <;> simp
        simp only [ffillGo, if_neg hm, List.getD_cons_succ]
        rw [ih v c hc2]
        simp [List.take_succ_cons, List.filter_cons, hm2, getLast?_cons_getD]

/-- C2: in every header row except the last, a missing cell (`None`,
empty, or equal to the merge sentinel) takes the value of the nearest
non-missing cell to its left, a missing cell with no non-missing cell to
its left stays missing, and non-missing cells are unchanged; the rows
before the last are exactly the forward-filled original rows; the last
row is never forward-filled — it is only cleaned, its missing cells
becoming absent.  The witness instantiates the row
`["Party", None, "Age"]` with sentinel `"None"`, whose second cell fills
to `"Party"`. -/
theorem c2_forward_fill :
    (∀ (sentinel : String) (row : List (Option String)) (c : Nat),
      c < row.length →
      (ffillRow sentinel row).getD c none =
        if isMissingCell sentinel (row.getD c none)
        then (((row.take c).filter
            (fun v => !(isMissingCell sentinel v))).getLast?).getD none
        else row.getD c none)
    ∧ (∀ (sentinel : String) (rows : List (List (Option String))) (r : Nat),
        r < rows.length - 1 →
        (headerProcess sentinel rows).getD r []
          = ffillRow sentinel (rows.getD r []))
    ∧ (∀ (sentinel : String) (rows : List (List (Option String))),
        rows ≠ [] →
        (headerProcess sentinel rows).getLastD []
          = cleanLastRow sentinel (rows.getLastD []))
    ∧ (∀ (sentinel : String) (row : List (Option String)) (c : Nat),
        isMissingCell sentinel (row.getD c none) = true →
        (cleanLastRow sentinel row).getD c none = none) := by
  refine ⟨?_, ?_, ?_, ?_⟩
  · intro sentinel row c hc
    exact ffillGo_getD sentinel row none c hc
  · intro sentinel rows r hr
    have hne : rows.isEmpty = false := by
      cases rows with
      | nil => simp at hr
      | cons a t => rfl
    unfold headerProcess
    rw [if_neg (by simp [hne])]
    have hlen : r < ((rows.take (rows.length - 1)).map (ffillRow sentinel)).length := by
      simp only [List.length_map, List.length_take]
      omega
    rw [List.getD_eq_getElem?_getD, List.getElem?_append_left hlen,
      List.getElem?_map, List.getElem?_take_of_lt hr,
      List.getElem?_eq_getElem (show r < rows.length by omega)]
    rw [List.getD_eq_getElem?_getD,
      List.getElem?_eq_getElem (show r < rows.length by omega)]
    rfl
  · intro sentinel rows hne
    unfold headerProcess
    rw [if_neg (by simp [hne])]
    rw [List.getLastD_eq_getLast?, List.getLast?_concat]
    rfl
  · intro sentinel row c hmiss
    unfold cleanLastRow
    rw [List.getD_eq_getElem?_getD, List.getElem?_map]
    cases hx : row[c]? with
    | none => rfl
    | some v =>
      have hv : row.getD c none = v := by
        rw [List.getD_eq_getElem?_getD, hx]; rfl
      rw [hv] at hmiss
      simp [hmiss]

/-- Witness for C2: the top-level row `["Party", None, "Age"]` with
sentinel `"None"` forward-fills its second cell to `"Party"`. -/
theorem c2_forward_fill_witness :
    (ffillRow "None" [some "Party", none, some "Age"]).getD 1 none
      = some "Party" := by
  have h := c2_forward_fill.1 "None" [some "Party", none, some "Age"] 1 (by decide)
  rw [h]; decide

/-- C3 evaluated at the failing input: with no combine rule and no
separator option supplied, the flattener joins the lower levels of a
three-level stack with the signature default `'; '` of
`_apply_multiheader_from_frames`, yielding `"A (B; C)"`, not the
`"A (B, C)"` that the claim (and the `read_data` docstring) state. -/
theorem c3_default_separator_semicolon :
    apply_multiheader_defaults ["c1", "c2"]
        [[some "A", some "A"], [some "B", some "B"], [some "C", some "D"]]
      = Except.ok ["A (B; C)", "A (B; D)"]
    ∧ ("A (B; C)" : String) ≠ "A (B, C)" :=
  ⟨rfl, by decide⟩

/-- C4: the flattener raises (returns an error and therefore never
reaches the renaming step, leaving the data column names unchanged)
exactly when the header block has zero rows or its column count differs
from the data column count; with at least one header row and matching
counts no such error is raised. -/
theorem c4_shape_preconditions :
    ∀ (dataCols : List String) (headerRows : List (List (Option String)))
      (rule : CombineRule) (sep sentinel : String),
      (∃ e, apply_multiheader_from_frames dataCols headerRows rule sep sentinel
          = Except.error e)
        ↔ (headerRows.length = 0
            ∨ dataCols.length ≠ (headerRows.headD []).length) := by
  intro dataCols headerRows rule sep sentinel
  unfold apply_multiheader_from_frames
  by_cases h0 : headerRows.length = 0
  · rw [if_pos h0]; exact iff_of_true ⟨_, rfl⟩ (Or.inl h0)
  · rw [if_neg h0]
    by_cases h1 : dataCols.length ≠ (headerRows.headD []).length
    · rw [if_pos h1]; exact iff_of_true ⟨_, rfl⟩ (Or.inr h1)
    · rw [if_neg h1]
      refine iff_of_false ?_ ?_
      · rintro ⟨e, he⟩; exact Except.noConfusion he
      · rintro (h | h); exacts [h0 h, h1 h]

/-- Unfolding of the variable-label filter on an entry with no label. -/
theorem filterVariables_cons_none (k : String) (rest : List (String × Option String)) :
    filterVariables ((k, none) :: rest) = filterVariables rest := by
  simp [filterVariables, List.filterMap_cons]

/-- Unfolding of the variable-label filter on a blank label. -/
theorem filterVariables_cons_blank (k s : String)
    (rest : List (String × Option String)) (h : pyStrip s = "") :
    filterVariables ((k, some s) :: rest) = filterVariables rest := by
  simp [filterVariables, List.filterMap_cons, h]

/-- Unfolding of the variable-label filter on a kept label. -/
theorem filterVariables_cons_keep (k s : String)
    (rest : List (String × Option String)) (h : pyStrip s ≠ "") :
    filterVariables ((k, some s) :: rest) = (k, s) :: filterVariables rest := by
  simp [filterVariables, List.filterMap_cons, h]

/-- A name that is no key of the raw dictionary is no key of the
filtered dictionary. -/
theorem find?_filterVariables_eq_none :
    ∀ (raw : List (String × Option String)) (var : String),
      var ∉ raw.map Prod.fst →
      (filterVariables raw).find? (fun kv => kv.1 == var) = none := by
  intro raw
  induction raw with
  | nil => intro var h; rfl
  | cons kv rest ih =>
    intro var h
    obtain ⟨k, v⟩ := kv
    simp only [List.map_cons, List.mem_cons, not_or] at h
    obtain ⟨hk, hrest⟩ := h
    cases v with
    | none => rw [filterVariables_cons_none]; exact ih var hrest
    | some s =>
      by_cases hs : pyStrip s = ""
      · rw [filterVariables_cons_blank k s rest hs]; exact ih var hrest
      · rw [filterVariables_cons_keep k s rest hs,
          List.find?_cons_of_neg _ (by simp; exact fun he => hk he.symm)]
        exact ih var hrest

/-- Looking a name up in the filtered dictionary finds exactly the label
that `__post_init__` extracts for it (keys of a Python dict are unique). -/
theorem find?_filterVariables :
    ∀ (raw : List (String × Option String)) (var : String),
      (raw.map Prod.fst).Nodup →
      (filterVariables raw).find? (fun kv => kv.1 == var)
        = (extractedLabel raw var).map (fun s => (var, s)) := by
  intro raw
  induction raw with
  | nil => intro var _; rfl
  | cons kv rest ih =>
    intro var hnd
    obtain ⟨k, v⟩ := kv
    simp only [List.map_cons, List.nodup_cons] at hnd
    obtain ⟨hk, hnd2⟩ := hnd
    by_cases hkv : k = var
    · subst hkv
      unfold extractedLabel
      rw [List.find?_cons_of_pos _ (by simp)]
      cases v with
      | none =>
        rw [filterVariables_cons_none, find?_filterVariables_eq_none rest k hk]
        rfl
      | some s =>
        by_cases hs : pyStrip s = ""
        · rw [filterVariables_cons_blank k s rest hs,
            find?_filterVariables_eq_none rest k hk]
          simp [hs]
        · rw [filterVariables_cons_keep k s rest hs,
            List.find?_cons_of_pos _ (by simp)]
          simp [hs]
    · unfold extractedLabel
      rw [List.find?_cons_of_neg _ (by simp; exact hkv)]
      cases v with
      | none => rw [filterVariables_cons_none]; exact ih var hnd2
      | some s =>
        by_cases hs : pyStrip s = ""
        · rw [filterVariables_cons_blank k s rest hs]; exact ih var hnd2
        · rw [filterVariables_cons_keep k s rest hs,
            List.find?_cons_of_neg _ (by simp; exact hkv)]
          exact ih var hnd2

/-- Every entry surviving the value-label filter carries a non-empty
mapping. -/
theorem mem_filterValues_ne_nil :
    ∀ (raw : List (String × Option (List (String × String)))) (entry),
      entry ∈ filterValues raw → entry.2 ≠ [] := by
  intro raw
  induction raw with
  | nil => intro entry h; exact absurd h (by simp [filterValues])
  | cons kv rest ih =>
    intro entry h
    obtain ⟨k, d⟩ := kv
    cases d with
    | none =>
      rw [show filterValues ((k, none) :: rest) = filterValues rest from by
        simp [filterValues, List.filterMap_cons]] at h
      exact ih entry h
    | some dd =>
      by_cases hd : dd = []
      · rw [show filterValues ((k, some dd) :: rest) = filterValues rest from by
          simp [filterValues, List.filterMap_cons, hd]] at h
        exact ih entry h
      · rw [show filterValues ((k, some dd) :: rest)
            = (k, dd) :: filterValues rest from by
          simp [filterValues, List.filterMap_cons, hd]] at h
        rcases List.mem_cons.mp h with he | he
        · subst he; simpa using hd
        · exact ih entry he

/-- C5: after `DATA_LABELS` construction, the variable-label mapping is
total on `original` — its keys are exactly `original`, in order, and
each name maps to its extracted label when that is a non-empty string
after stripping, and to the name itself otherwise; and every surviving
value-label entry is a non-empty mapping. -/
theorem c5_label_model_totality :
    ∀ (original : List String)
      (variablesRaw : List (String × Option String))
      (valuesRaw : List (String × Option (List (String × String)))),
      (variablesRaw.map Prod.fst).Nodup →
      (((mkDataLabels original variablesRaw valuesRaw).varLabels.map Prod.fst
          = original)
        ∧ (∀ var ∈ original,
            (var, (extractedLabel variablesRaw var).getD var)
              ∈ (mkDataLabels original variablesRaw valuesRaw).varLabels))
      ∧ (∀ entry ∈ (mkDataLabels original variablesRaw valuesRaw).values,
          entry.2 ≠ []) := by
  intro original variablesRaw valuesRaw hnd
  refine ⟨⟨?_, ?_⟩, ?_⟩
  · show (completeVariables original (filterVariables variablesRaw)).map Prod.fst
      = original
    unfold completeVariables
    rw [List.map_map]
    have : (Prod.fst ∘ fun var =>
        match (filterVariables variablesRaw).find? (fun kv => kv.1 == var) with
        | some kv => (var, kv.2)
        | none => (var, var)) = id := by
      funext var
      cases h : (filterVariables variablesRaw).find? (fun kv => kv.1 == var) <;>
        simp [h]
    rw [this, List.map_id]
  · intro var hvar
    show _ ∈ completeVariables original (filterVariables variablesRaw)
    unfold completeVariables
    refine List.mem_map.mpr ⟨var, hvar, ?_⟩
    rw [find?_filterVariables variablesRaw var hnd]
    cases h : extractedLabel variablesRaw var <;> simp [h]
  · exact fun entry hmem => mem_filterValues_ne_nil valuesRaw entry hmem

/-- Witness for C5 on a table with one real label, one blank label and
one empty value-label mapping. -/
theorem c5_label_model_totality_witness :
    ((mkDataLabels ["a", "b"]
        [("a", some "Label A"), ("b", some "  ")]
        [("a", some [("1", "x")]), ("b", some ([] : List (String × String)))]).varLabels.map
      Prod.fst = ["a", "b"])
    ∧ ("b", (extractedLabel [("a", some "Label A"), ("b", some "  ")] "b").getD "b")
        ∈ (mkDataLabels ["a", "b"]
            [("a", some "Label A"), ("b", some "  ")]
            [("a", some [("1", "x")]), ("b", some ([] : List (String × String)))]).varLabels := by
  constructor
  · exact (c5_label_model_totality ["a", "b"]
      [("a", some "Label A"), ("b", some "  ")]
      [("a", some [("1", "x")]), ("b", some ([] : List (String × String)))]
      (by decide)).1.1
  · exact (c5_label_model_totality ["a", "b"]
      [("a", some "Label A"), ("b", some "  ")]
      [("a", some [("1", "x")]), ("b", some ([] : List (String × String)))]
      (by decide)).1.2 "b" (by decide)

/-- C7 evaluated at the failing input: the `big_data` branch calls
`read_dask(fn, ...)`, passing two positional arguments to a
`__new__` that accepts none, so the branch raises `TypeError` instead of
yielding the null result the claim describes (and had the call gone
through, the branch's `return df` would still raise `UnboundLocalError`);
the stub itself, entered with no arguments, does return `None`. -/
theorem c7_big_data_stub :
    read_data_big_data_branch
      = Except.error (PyExc.typeError
          "read_dask.__new__ takes 0 positional arguments")
    ∧ read_dask_new 0 = Except.ok none :=
  ⟨rfl, rfl⟩

/-- C6 evaluated around the failing input: with neither `fn` nor `url`
the argument phase raises the AssertionError of io.py line 206; but with
`url` (and possibly `credentials`) supplied and no `fn` it raises a
`TypeError` — `re.search(pattern="^http", string=None)` at io.py line 208
— instead of proceeding to dispatch as the claim states; `read_gspread`
itself errors exactly when credentials or url is missing. -/
theorem c6_dispatch_arguments :
    (∀ (resolve : String → String) (isfile : String → Bool),
        read_data_argcheck resolve isfile none none
          = Except.error (PyExc.assertionError
              "Either fn or url must be provided."))
    ∧ (∀ (resolve : String → String) (isfile : String → Bool) (u : String),
        u ≠ "" →
        read_data_argcheck resolve isfile none (some u)
          = Except.error (PyExc.typeError
              "expected string or bytes-like object"))
    ∧ (∀ (credentials url : Option String),
        (∃ e, read_gspread_argcheck credentials url = Except.error e)
          ↔ (truthy credentials = false ∨ truthy url = false)) := by
  refine ⟨fun resolve isfile => rfl, ?_, ?_⟩
  · intro resolve isfile u hu
    have hb : (u == "") = false := beq_eq_false_iff_ne.mpr hu
    simp [read_data_argcheck, expand_to_full_path_or_url, truthy, hb]
  · intro credentials url
    unfold read_gspread_argcheck
    cases hc : truthy credentials
    · simp
    · cases hu : truthy url
      · simp
      · simp

/-- Witness for C6: a Google-spreadsheet URL with no `fn`. -/
theorem c6_dispatch_arguments_witness :
    read_data_argcheck id (fun _ => false) none
        (some "https://docs.google.com/spreadsheets/d/abc")
      = Except.error (PyExc.typeError
          "expected string or bytes-like object") :=
  c6_dispatch_arguments.2.1 id (fun _ => false)
    "https://docs.google.com/spreadsheets/d/abc" (by decide)

/-- C9: a 1-based inclusive `rows_range = [a, b]` with `1 ≤ a ≤ b` is
converted for the SPSS parser to the 0-based pair
`row_offset = a - 1`, `row_limit = b - a + 1`; an absent range becomes
`(0, 0)`. -/
theorem c9_sav_rows_range :
    (∀ a b : Int, 1 ≤ a → a ≤ b →
      sav_row_window (some (a, b)) = (a - 1, b - a + 1))
    ∧ sav_row_window none = (0, 0) := by
  refine ⟨fun a b _ _ => ?_, rfl⟩
  unfold sav_row_window
  rw [Prod.mk.injEq]
  exact ⟨rfl, by ring⟩

/-- Witness for C9 at the window `[2, 5]`. -/
theorem c9_sav_rows_range_witness :
    sav_row_window (some (2, 5)) = (1, 4) := by
  have h := c9_sav_rows_range.1 2 5 (by decide) (by decide)
  norm_num at h
  exact h

/-- Occurrence is preserved by extending the list on the left. -/
theorem containsSub_cons_of (pat : List Char) (c : Char) (l : List Char)
    (h : containsSub pat l = true) : containsSub pat (c :: l) = true := by
  simp only [containsSub]
  rw [h, Bool.or_true]

/-- The scheme separator occurs where it stands. -/
theorem containsSub_marker (rest : List Char) :
    containsSub [':', '/', '/'] (':' :: '/' :: '/' :: rest) = true := by
  simp [containsSub, List.isPrefixOf]

/-- Percent-decoding is the identity on percent-free text. -/
theorem unquoteL_no_percent :
    ∀ (l : List Char), '%' ∉ l → unquoteL l = l := by
  intro l
  induction l with
  | nil => intro h; rfl
  | cons c rest ih =>
    intro h
    simp only [List.mem_cons, not_or] at h
    obtain ⟨hc, hrest⟩ := h
    rw [unquoteL.eq_3 c rest (fun a b rest2 hceq _ => hc hceq.symm),
      ih hrest]

/-- A `takeWhile` whose predicate holds everywhere returns its input. -/
theorem takeWhile_eq_self_of (p : Char → Bool) :
    ∀ (l : List Char), (∀ c ∈ l, p c = true) → l.takeWhile p = l := by
  intro l
  induction l with
  | nil => intro h; rfl
  | cons c rest ih =>
    intro h
    rw [List.takeWhile_cons, if_pos (h c (List.mem_cons_self c rest)),
      ih (fun d hd => h d (List.mem_cons_of_mem c hd))]

/-- Unfolding of the normalizer on a present string. -/
theorem expand_some (resolve : String → String) (s : String) :
    expand_to_full_path_or_url resolve (some s)
      = if s = "" then some s
        else if containsSub [':', '/', '/'] s.data then
          if (urlparse_scheme_path s).1 = "file" then
            some (resolve (url2pathname_posix (urlparse_scheme_path s).2))
          else if (urlparse_scheme_path s).1 ≠ "" then some s
          else some (resolve s)
        else some (resolve s) := rfl

/-- Parse of a `file://` URL whose path component is an absolute path
free of `?` and `#`: scheme `file`, path unchanged. -/
theorem urlparse_file_slash (q : String) (h1 : '?' ∉ q.data)
    (h2 : '#' ∉ q.data) :
    urlparse_scheme_path ("file://" ++ ("/" ++ q))
      = ("file", String.mk ('/' :: q.data)) := by
  show ("file", String.mk ((('/' :: q.data).takeWhile
        (fun c => !(c == '#'))).takeWhile (fun c => !(c == '?'))))
    = ("file", String.mk ('/' :: q.data))
  have hH : ∀ c ∈ ('/' :: q.data), (fun c => !(c == '#')) c = true := by
    intro c hc
    rcases List.mem_cons.mp hc with he | he
    · subst he; decide
    · have hb : (c == '#') = false :=
        beq_eq_false_iff_ne.mpr (fun hce => h2 (hce ▸ he))
      simp [hb]
  rw [takeWhile_eq_self_of (fun c => !(c == '#')) ('/' :: q.data) hH]
  have hQ : ∀ c ∈ ('/' :: q.data), (fun c => !(c == '?')) c = true := by
    intro c hc
    rcases List.mem_cons.mp hc with he | he
    · subst he; decide
    · have hb : (c == '?') = false :=
        beq_eq_false_iff_ne.mpr (fun hce => h1 (hce ▸ he))
      simp [hb]
  rw [takeWhile_eq_self_of (fun c => !(c == '?')) ('/' :: q.data) hQ]

/-- A string that starts with `/` has no parseable scheme. -/
theorem urlparse_slash_scheme (q : String) :
    (urlparse_scheme_path ("/" ++ q)).1 = "" := by
  cases hsc : splitColon q.data with
  | none =>
    have hsp : splitColon (("/" ++ q)).data = none := by
      show (match splitColon q.data with
        | some (pre, post) => some ('/' :: pre, post)
        | none => none) = none
      rw [hsc]
    unfold urlparse_scheme_path
    rw [hsp]
  | some pr =>
    obtain ⟨pre, post⟩ := pr
    have hsp : splitColon (("/" ++ q)).data = some ('/' :: pre, post) := by
      show (match splitColon q.data with
        | some (pre, post) => some ('/' :: pre, post)
        | none => none) = some ('/' :: pre, post)
      rw [hsc]
    unfold urlparse_scheme_path
    rw [hsp]
    have hns : isSchemeChars ('/' :: pre) = false := by
      show ('/'.isAlpha && (('/' :: pre).all isSchemeChar)) = false
      rw [(show '/'.isAlpha = false from by decide), Bool.false_and]
    simp [hns]

/-- C8 counterexample: the round-trip fails on an absolute path that
contains `?` — urlparse cuts the URL path at the query separator, so
`file:///tmp/x?.csv` resolves to `/tmp/x` while the direct path keeps
its full name. -/
theorem c8_file_roundtrip_counterexample :
    expand_to_full_path_or_url id (some ("file://" ++ "/tmp/x?.csv"))
      ≠ expand_to_full_path_or_url id (some "/tmp/x?.csv") := by decide

/-- C8 amended: the `file://` round-trip holds for every absolute path
that contains none of `?`, `#`, `%` (the claim's unrestricted version
fails on those, see the counterexample); a string with a parseable
non-`file` scheme is returned unchanged; `None` and the empty string are
returned unchanged; a string containing `://` without a parseable scheme
is treated as a filesystem path (resolved). -/
theorem c8_normalizer_amended :
    (∀ (resolve : String → String) (q : String),
        '?' ∉ q.data → '#' ∉ q.data → '%' ∉ q.data →
        expand_to_full_path_or_url resolve (some ("file://" ++ ("/" ++ q)))
          = expand_to_full_path_or_url resolve (some ("/" ++ q)))
    ∧ (∀ (resolve : String → String) (s : String), s ≠ "" →
        containsSub [':', '/', '/'] s.data = true →
        (urlparse_scheme_path s).1 ≠ "" →
        (urlparse_scheme_path s).1 ≠ "file" →
        expand_to_full_path_or_url resolve (some s) = some s)
    ∧ (∀ (resolve : String → String),
        expand_to_full_path_or_url resolve none = none
        ∧ expand_to_full_path_or_url resolve (some "") = some "")
    ∧ (∀ (resolve : String → String) (s : String), s ≠ "" →
        containsSub [':', '/', '/'] s.data = true →
        (urlparse_scheme_path s).1 = "" →
        expand_to_full_path_or_url resolve (some s) = some (resolve s)) := by
  refine ⟨?_, ?_, fun resolve => ⟨rfl, rfl⟩, ?_⟩
  · intro resolve q h1 h2 h3
    have h1c : '?' ∉ ('/' :: q.data) := by
      intro hmem
      rcases List.mem_cons.mp hmem with he | he
      · exact absurd he (by decide)
      · exact h1 he
    have h2c : '#' ∉ ('/' :: q.data) := by
      intro hmem
      rcases List.mem_cons.mp hmem with he | he
      · exact absurd he (by decide)
      · exact h2 he
    have h3c : '%' ∉ ('/' :: q.data) := by
      intro hmem
      rcases List.mem_cons.mp hmem with he | he
      · exact absurd he (by decide)
      · exact h3 he
    have hne1 : ¬(("file://" ++ ("/" ++ q)) = "") := by
      intro he
      have hd : ('f' :: 'i' :: 'l' :: 'e' :: ':' :: '/' :: '/' :: '/'
          :: q.data : List Char) = [] := congrArg String.data he
      exact List.cons_ne_nil _ _ hd
    have hne2 : ¬(("/" ++ q) = "") := by
      intro he
      have hd : ('/' :: q.data : List Char) = [] := congrArg String.data he
      exact List.cons_ne_nil _ _ hd
    have hcont : containsSub [':', '/', '/']
        (("file://" ++ ("/" ++ q))).data = true := by
      show containsSub [':', '/', '/']
        ('f' :: 'i' :: 'l' :: 'e' :: ':' :: '/' :: '/' :: '/' :: q.data) = true
      apply containsSub_cons_of
      apply containsSub_cons_of
      apply containsSub_cons_of
      apply containsSub_cons_of
      exact containsSub_marker _
    have hup := urlparse_file_slash q h1 h2
    have hmks : String.mk ('/' :: q.data) = "/" ++ q := by
      obtain ⟨ql⟩ := q
      rfl
    rw [expand_some, expand_some, if_neg hne1, if_pos hcont,
      if_pos (show (urlparse_scheme_path ("file://" ++ ("/" ++ q))).1 = "file"
        from by rw [hup]),
      if_neg hne2]
    rw [show url2pathname_posix (urlparse_scheme_path
          ("file://" ++ ("/" ++ q))).2 = "/" ++ q from by
      rw [hup]
      show String.mk (unquoteL ('/' :: q.data)) = "/" ++ q
      rw [unquoteL_no_percent ('/' :: q.data) h3c, hmks]]
    have hs0 := urlparse_slash_scheme q
    by_cases hb : containsSub [':', '/', '/'] (("/" ++ q)).data = true
    · rw [if_pos hb,
        if_neg (show ¬((urlparse_scheme_path ("/" ++ q)).1 = "file") from
          fun hcond => by rw [hs0] at hcond; exact absurd hcond (by decide)),
        if_neg (show ¬((urlparse_scheme_path ("/" ++ q)).1 ≠ "") from
          fun hne => hne hs0)]
    · rw [if_neg hb]
  · intro resolve s hne hcont hzero hfile
    rw [expand_some, if_neg hne, if_pos hcont, if_neg hfile, if_pos hzero]
  · intro resolve s hne hcont hs0
    rw [expand_some, if_neg hne, if_pos hcont,
      if_neg (show ¬((urlparse_scheme_path s).1 = "file") from
        fun hcond => by rw [hs0] at hcond; exact absurd hcond (by decide)),
      if_neg (show ¬((urlparse_scheme_path s).1 ≠ "") from
        fun hne2 => hne2 hs0)]

/-- Witness for C8 on `/tmp/x.csv`. -/
theorem c8_normalizer_amended_witness :
    expand_to_full_path_or_url id (some ("file://" ++ ("/" ++ "tmp/x.csv")))
      = expand_to_full_path_or_url id (some ("/" ++ "tmp/x.csv")) :=
  c8_normalizer_amended.1 id "tmp/x.csv" (by decide) (by decide) (by decide)

/-- C10: the default combine rule filters levels against the fixed set
of `None`, the empty string and the literal text `"None"` — it receives
no sentinel at all — so for every custom sentinel `s ≠ "None"` a clean
level whose text is exactly `"None"` is still dropped from the combined
name (second conjunct: a full flatten with sentinel `s` drops the
literal `"None"` level from `"A"`'s name), while a level equal to `s`
that survived the cleaning phases is kept (first conjunct). -/
theorem c10_combine_fixed_filter :
    (∀ (s sep : String), s ≠ "None" → pyStrip s ≠ "" →
        combine_with_parens [some "Party", some "None", some s] sep
          = "Party (" ++ pyStrip s ++ ")")
    ∧ (∀ (s : String), s ≠ "None" → s ≠ "A" → s ≠ "B" → s ≠ "" →
        apply_multiheader_from_frames ["c1", "c2"]
            [[some "A", some "A"], [some "None", some "B"]]
            CombineRule.none "; " s
          = Except.ok ["A", "A (B)"]) := by
  constructor
  · intro s sep hs hstrip
    have hs0 : s ≠ "" := fun he => hstrip (by rw [he]; rfl)
    have c1 : ((some "Party" : Option String) = none
        ∨ (some "Party" : Option String) = some ""
        ∨ (some "Party" : Option String) = some "None") = False :=
      eq_false (by decide)
    have c2 : ((some "None" : Option String) = none
        ∨ (some "None" : Option String) = some ""
        ∨ (some "None" : Option String) = some "None") = True :=
      eq_true (by decide)
    have c3 : ((some s : Option String) = none
        ∨ (some s : Option String) = some ""
        ∨ (some s : Option String) = some "None") = False :=
      eq_false (by simp [hs0, hs])
    have c4 : (pyStrip s == "") = false := beq_eq_false_iff_ne.mpr hstrip
    unfold combine_with_parens
    simp only [List.filterMap_cons, List.filterMap_nil, pyStr, c1, c2, c3,
      or_true, if_true, if_false, List.filter_cons, List.filter_nil, c4,
      Bool.not_false]
    rfl
  · intro s h0 hA hB hE
    have mA : isMissingCell s (some "A") = false := by
      apply decide_eq_false
      rintro (h | h)
      · exact absurd h (by decide)
      · exact hA h.symm
    have mN : isMissingCell s (some "None") = false := by
      apply decide_eq_false
      rintro (h | h)
      · exact absurd h (by decide)
      · exact h0 h.symm
    have mB : isMissingCell s (some "B") = false := by
      apply decide_eq_false
      rintro (h | h)
      · exact absurd h (by decide)
      · exact hB h.symm
    have hHP : headerProcess s [[some "A", some "A"], [some "None", some "B"]]
        = [[some "A", some "A"], [some "None", some "B"]] := by
      unfold headerProcess
      rw [if_neg (by decide)]
      simp [ffillRow, ffillGo, cleanLastRow, mA, mN, mB]
    unfold apply_multiheader_from_frames
    rw [if_neg (by decide), if_neg (by decide)]
    unfold cleanedStacks
    rw [hHP]
    rfl

/-- Witness for C10 with the custom sentinel `"X"` and the kept level
`" X "`. -/
theorem c10_combine_fixed_filter_witness :
    combine_with_parens [some "Party", some "None", some " X "] ", "
      = "Party (" ++ pyStrip " X " ++ ")"
    ∧ apply_multiheader_from_frames ["c1", "c2"]
        [[some "A", some "A"], [some "None", some "B"]]
        CombineRule.none "; " "X"
      = Except.ok ["A", "A (B)"] :=
  ⟨c10_combine_fixed_filter.1 " X " ", " (by decide) (by decide),
   c10_combine_fixed_filter.2 "X" (by decide) (by decide) (by decide)
     (by decide)⟩

end TidyPolars4Sci
